import Mathlib

/-!
Verification of the advisory-request backend (`app/routers/requests.py`,
`app/models.py`, `app/schemas.py`, `app/deps.py`).

The database is embedded as explicit lists of rows; each HTTP handler of the
requests router becomes a pure function from its arguments and the database
state to an `Except` value carrying either an HTTP error status code or the
response together with the updated database.  Timestamps are abstract `Nat`
ticks, monetary amounts are `Rat` (only compared, never rounded).
-/

namespace Aurora

/-- `User.role` column values (`models.User.role`: client/advisor/admin). -/
inductive Role where
  | client
  | advisor
  | admin
deriving DecidableEq, Repr

/-- `models.RequestStatusEnum`: the four request lifecycle states. -/
inductive Status where
  | pending
  | in_review
  | completed
  | cancelled
deriving DecidableEq, Repr

/-- `models.RiskProfileEnum` / `schemas.RiskProfile`. -/
inductive RiskProfile where
  | prudente
  | equilibrato
  | dinamico
deriving DecidableEq, Repr

/-- Row of the `users` table (the columns the requests router reads). -/
structure User where
  id : Nat
  email : String
  role : Role
deriving DecidableEq, Repr

/-- Row of `consultation_requests` (`models.ConsultationRequest`). -/
structure ConsultationRequest where
  id : Nat
  user_id : Nat
  goal : String
  amount : Rat
  monthly_contribution : Option Rat
  risk_profile : RiskProfile
  time_horizon_years : Int
  notes : Option String
  status : Status
  created_at : Nat
  updated_at : Nat
deriving DecidableEq, Repr

/-- Row of `consultation_request_status_logs` (`models.ConsultationRequestStatusLog`). -/
structure ConsultationRequestStatusLog where
  id : Nat
  request_id : Nat
  changed_by_user_id : Nat
  old_status : Option Status
  new_status : Status
  changed_at : Nat
deriving DecidableEq, Repr

/-- Database state: the tables touched by the requests router, plus the
primary-key counters handing out fresh ids. -/
structure DB where
  users : List User
  requests : List ConsultationRequest
  logs : List ConsultationRequestStatusLog
  nextReqId : Nat
  nextLogId : Nat
deriving DecidableEq, Repr

/-- `schemas.ConsultationRequestCreate` (inherits `ConsultationRequestBase`):
the raw create payload, before field validation. -/
structure ConsultationRequestCreate where
  goal : String
  amount : Rat
  monthly_contribution : Option Rat
  risk_profile : RiskProfile
  time_horizon_years : Int
  notes : Option String
deriving DecidableEq, Repr

/-- Field validation of `schemas.ConsultationRequestBase` as written:
`amount: Field(ge=0)`, `monthly_contribution: Field(default=None, ge=0)`,
`time_horizon_years: Field(ge=1, le=60)`; `goal` and `notes` carry no
constraint, `risk_profile` is enum-typed. -/
def validConsultationRequestBase (p : ConsultationRequestCreate) : Bool :=
  decide (0 ≤ p.amount)
    && (match p.monthly_contribution with
        | some m => decide (0 ≤ m)
        | none => true)
    && decide (1 ≤ p.time_horizon_years)
    && decide (p.time_horizon_years ≤ 60)

/-- Python `str.strip()`: drop leading and trailing whitespace. -/
def pyStrip (s : String) : String :=
  ⟨((s.data.dropWhile Char.isWhitespace).reverse.dropWhile
      Char.isWhitespace).reverse⟩

/-- `payload.notes.strip() if payload.notes else None` (empty string is falsy). -/
def stripNotes (notes : Option String) : Option String :=
  match notes with
  | none => none
  | some t => if t = "" then none else some (pyStrip t)

/-- Replace the first element satisfying `p` by its image under `f`
(SQLAlchemy `first()` + in-place mutation of the fetched row). -/
def updateFirst (p : α → Bool) (f : α → α) : List α → List α
  | [] => []
  | x :: xs => if p x then f x :: xs else x :: updateFirst p f xs

/-- Stable insertion into a sorted list (model of the store's `ORDER BY`). -/
def insertLe (le : α → α → Bool) (x : α) : List α → List α
  | [] => [x]
  | y :: ys => if le x y then x :: y :: ys else y :: insertLe le x ys

/-- Stable insertion sort (model of the store's `ORDER BY`). -/
def sortByLe (le : α → α → Bool) : List α → List α
  | [] => []
  | x :: xs => insertLe le x (sortByLe le xs)

/-- SQL `LIKE` pattern matching on character lists: `%` matches any
(possibly empty) sequence, `_` matches exactly one character, anything else
matches itself.  Structural on the pattern; `%` tries every suffix of the
remaining text. -/
def likeChars : List Char → List Char → Bool
  | [], h => h.isEmpty
  | p :: ps, h =>
    if p = '%' then h.tails.any (fun h' => likeChars ps h')
    else
      match h with
      | [] => false
      | c :: hs => (decide (p = '_') || decide (p = c)) && likeChars ps hs

/-- `column ILIKE pattern`: on SQLite this is `lower(column) LIKE
lower(pattern)`, with ASCII-only case folding (which `Char.toLower` also
performs). -/
def ilike (column : String) (pattern : String) : Bool :=
  likeChars (pattern.data.map Char.toLower) (column.data.map Char.toLower)

/-- Audit rows of one request, in insertion order. -/
def DB.logsFor (db : DB) (rid : Nat) : List ConsultationRequestStatusLog :=
  db.logs.filter (fun l => decide (l.request_id = rid))

/-- `app.deps.require_advisor`: role must be advisor or admin. -/
def isAdvisor (u : User) : Bool :=
  decide (u.role = Role.advisor) || decide (u.role = Role.admin)

/-- State reached by a mutating handler: the new database on success, the
prior database if the handler raised (a failed operation commits nothing). -/
def dbAfter (e : Except Nat (α × DB)) (db : DB) : DB :=
  match e with
  | .ok (_, db') => db'
  | .error _ => db

/-- `POST /requests` (`create_request`): inserts a new row owned by the
caller, goal stripped, status `pending`; writes no audit row.  The payload
was already accepted by `ConsultationRequestCreate` validation. -/
def create_request (u : User) (p : ConsultationRequestCreate) (db : DB)
    (now : Nat) : ConsultationRequest × DB :=
  let r : ConsultationRequest :=
    { id := db.nextReqId
      user_id := u.id
      goal := pyStrip p.goal
      amount := p.amount
      monthly_contribution := p.monthly_contribution
      risk_profile := p.risk_profile
      time_horizon_years := p.time_horizon_years
      notes := stripNotes p.notes
      status := Status.pending
      created_at := now
      updated_at := now }
  (r, { db with requests := db.requests ++ [r], nextReqId := db.nextReqId + 1 })

/-- Row lookup predicate of the owner-scoped handlers:
`filter(id == request_id, user_id == current_user.id)`. -/
def ownPred (rid : Nat) (u : User) (r : ConsultationRequest) : Bool :=
  decide (r.id = rid) && decide (r.user_id = u.id)

/-- Response body of `cancel_my_request`. -/
structure CancelOut where
  ok : Bool
  old_status : Status
  new_status : Status
deriving DecidableEq, Repr

/-- `PATCH /requests/me/{id}` (`cancel_my_request`): owner-only; 404 when the
row is absent or owned by someone else; 400 from `in_review`/`completed`;
idempotent no-op when already `cancelled`; otherwise sets `cancelled` and
appends one audit row in the same commit. -/
def cancel_my_request (rid : Nat) (u : User) (db : DB) (now : Nat) :
    Except Nat (CancelOut × DB) :=
  match db.requests.find? (ownPred rid u) with
  | none => .error 404
  | some req =>
    if req.status = Status.in_review ∨ req.status = Status.completed then
      .error 400
    else if req.status = Status.cancelled then
      .ok (⟨true, Status.cancelled, Status.cancelled⟩, db)
    else
      let db' : DB :=
        { db with
          requests := updateFirst (ownPred rid u)
            (fun r => { r with status := Status.cancelled, updated_at := now })
            db.requests
          logs := db.logs ++
            [⟨db.nextLogId, req.id, u.id, some req.status, Status.cancelled, now⟩]
          nextLogId := db.nextLogId + 1 }
      .ok (⟨true, req.status, Status.cancelled⟩, db')

/-- `DELETE /requests/me/{id}` (`delete_my_request`): owner-only; 404 when
absent or not owned; 400 from `in_review`/`completed`.  Otherwise the handler
runs `db.delete(req); db.commit()`: the `status_logs` relationship declares
no delete cascade, so at flush SQLAlchemy de-associates any audit rows by
nulling their `request_id` — a NOT NULL column — and the commit raises
IntegrityError (surfacing as HTTP 500) whenever the request has audit rows,
leaving every row in place; only a request with no audit rows is actually
hard-deleted, and no audit row is ever written. -/
def delete_my_request (rid : Nat) (u : User) (db : DB) :
    Except Nat (Unit × DB) :=
  match db.requests.find? (ownPred rid u) with
  | none => .error 404
  | some req =>
    if req.status = Status.in_review ∨ req.status = Status.completed then
      .error 400
    else if db.logsFor req.id = [] then
      .ok ((), { db with requests := db.requests.eraseP (ownPred rid u) })
    else
      .error 500

/-- `GET /requests/me/{id}` (`get_my_request`): 404 when the id is absent,
403 when the row exists but belongs to another user. -/
def get_my_request (rid : Nat) (u : User) (db : DB) :
    Except Nat ConsultationRequest :=
  match db.requests.find? (fun r => decide (r.id = rid)) with
  | none => .error 404
  | some req =>
    if req.user_id ≠ u.id then .error 403 else .ok req

/-- `PATCH /requests/{id}` (`update_request_status`): advisor/admin only
(403 otherwise, checked by the dependency before the lookup), 404 when the id
is absent; otherwise sets the status unconditionally and appends one audit
row `(old_status, new_status, changed_by_user_id)` in the same commit. -/
def update_request_status (rid : Nat) (s : Status) (u : User) (db : DB)
    (now : Nat) : Except Nat (ConsultationRequest × DB) :=
  if ¬ isAdvisor u then .error 403
  else
    match db.requests.find? (fun r => decide (r.id = rid)) with
    | none => .error 404
    | some req =>
      let db' : DB :=
        { db with
          requests := updateFirst (fun r => decide (r.id = rid))
            (fun r => { r with status := s, updated_at := now })
            db.requests
          logs := db.logs ++
            [⟨db.nextLogId, req.id, u.id, some req.status, s, now⟩]
          nextLogId := db.nextLogId + 1 }
      .ok ({ req with status := s, updated_at := now }, db')

/-- `GET /requests/{id}/history` (`get_request_history`): 404 when absent;
403 when the caller is neither advisor/admin nor the owner; otherwise the
request's audit rows ordered by `changed_at` descending. -/
def get_request_history (rid : Nat) (u : User) (db : DB) :
    Except Nat (List ConsultationRequestStatusLog) :=
  match db.requests.find? (fun r => decide (r.id = rid)) with
  | none => .error 404
  | some req =>
    if ¬ (u.role = Role.advisor ∨ u.role = Role.admin) ∧ req.user_id ≠ u.id then
      .error 403
    else
      .ok (sortByLe (fun a b => decide (b.changed_at ≤ a.changed_at))
        (db.logs.filter (fun l => decide (l.request_id = rid))))

/-- The `or_(goal ILIKE qq, notes ILIKE qq, users.email ILIKE qq)` filter of
the advisor list, where `qq` wraps the stripped search string between two
`%` signs, after the inner join on the owning user (a row whose owner is
missing is dropped by the join).  Any `%` or `_` inside the stripped search
string stays a live SQL wildcard. -/
def qMatch (db : DB) (qs : String) (r : ConsultationRequest) : Bool :=
  match db.users.find? (fun u => decide (u.id = r.user_id)) with
  | none => false
  | some owner =>
    ilike r.goal ("%" ++ qs ++ "%")
      || (match r.notes with
          | some n => ilike n ("%" ++ qs ++ "%")
          | none => false)
      || ilike owner.email ("%" ++ qs ++ "%")

/-- Response body of `list_all_requests`. -/
structure AdminRequestListOut where
  items : List ConsultationRequest
  total : Nat
deriving DecidableEq, Repr

/-- `GET /requests` (`list_all_requests`): advisor/admin only.  The status
filter is applied to the base query, but a non-blank `q` rebuilds the query
from scratch (dropping the status filter, as in the source); `total` is
counted before ordering and `skip`/`limit` pagination. -/
def list_all_requests (statusF : Option Status) (q : Option String)
    (skip limit : Nat) (u : User) (db : DB) :
    Except Nat AdminRequestListOut :=
  if ¬ isAdvisor u then .error 403
  else
    let query1 :=
      match statusF with
      | some s => db.requests.filter (fun r => decide (r.status = s))
      | none => db.requests
    let query :=
      match q with
      | some qs =>
        if pyStrip qs = "" then query1
        else db.requests.filter (qMatch db (pyStrip qs))
      | none => query1
    let total := query.length
    let items :=
      ((sortByLe (fun a b => decide (b.created_at ≤ a.created_at)) query).drop
        skip).take limit
    .ok ⟨items, total⟩

/-! ### Generic list lemmas for the row-update helpers -/

theorem find?_decomp {α : Type} {p : α → Bool} {l : List α} {x : α}
    (h : l.find? p = some x) :
    ∃ l₁ l₂, l = l₁ ++ x :: l₂ ∧ ∀ y ∈ l₁, p y = false := by
  induction l with
  | nil => simp at h
  | cons a l ih =>
    by_cases hpa : p a = true
    · rw [List.find?_cons_of_pos _ hpa] at h
      obtain rfl := Option.some.inj h
      exact ⟨[], l, rfl, by simp⟩
    · rw [List.find?_cons_of_neg _ hpa] at h
      obtain ⟨l₁, l₂, rfl, hl₁⟩ := ih h
      refine ⟨a :: l₁, l₂, rfl, ?_⟩
      intro y hy
      rcases List.mem_cons.mp hy with rfl | hy
      · simpa using hpa
      · exact hl₁ y hy

theorem updateFirst_append {α : Type} (p : α → Bool) (f : α → α)
    (l₁ l₂ : List α) (x : α) (h₁ : ∀ y ∈ l₁, p y = false) (hx : p x = true) :
    updateFirst p f (l₁ ++ x :: l₂) = l₁ ++ f x :: l₂ := by
  induction l₁ with
  | nil => simp [updateFirst, hx]
  | cons a l ih =>
    have ha : p a = false := h₁ a (List.mem_cons_self a l)
    simp [updateFirst, ha, ih (fun y hy => h₁ y (List.mem_cons_of_mem a hy))]

theorem eraseP_append {α : Type} (p : α → Bool) (l₁ l₂ : List α) (x : α)
    (h₁ : ∀ y ∈ l₁, p y = false) (hx : p x = true) :
    (l₁ ++ x :: l₂).eraseP p = l₁ ++ l₂ := by
  induction l₁ with
  | nil => simp [List.eraseP_cons, hx]
  | cons a l ih =>
    have ha : p a = false := h₁ a (List.mem_cons_self a l)
    simp [List.eraseP_cons, ha,
      ih (fun y hy => h₁ y (List.mem_cons_of_mem a hy))]

theorem mem_insertLe {α : Type} (le : α → α → Bool) (x : α) (l : List α)
    (a : α) : a ∈ insertLe le x l ↔ a = x ∨ a ∈ l := by
  induction l with
  | nil => simp [insertLe]
  | cons y ys ih =>
    by_cases h : le x y = true
    · simp [insertLe, h]
    · simp [insertLe, h, ih]
      tauto

theorem mem_sortByLe {α : Type} (le : α → α → Bool) (l : List α) (a : α) :
    a ∈ sortByLe le l ↔ a ∈ l := by
  induction l with
  | nil => simp [sortByLe]
  | cons x xs ih => simp [sortByLe, mem_insertLe, ih]

/-! ### The audit reconciliation invariant -/

/-- Audit reconciliation: the most recent audit row of each request records
its current status; a request with no audit row is still `pending`. -/
def auditOk (db : DB) : Prop :=
  ∀ r ∈ db.requests,
    ((db.logsFor r.id).getLast? = none → r.status = Status.pending) ∧
    ∀ l, (db.logsFor r.id).getLast? = some l → l.new_status = r.status

/-- Inductive invariant: audit reconciliation plus bookkeeping facts about
primary keys (request ids are distinct and below the id counter, and audit
rows only reference ids below the counter). -/
def Inv (db : DB) : Prop :=
  auditOk db ∧ (db.requests.map (fun r => r.id)).Nodup ∧
    (∀ r ∈ db.requests, r.id < db.nextReqId) ∧
    ∀ l ∈ db.logs, l.request_id < db.nextReqId

theorem Inv_create (u : User) (p : ConsultationRequestCreate) (db : DB)
    (now : Nat) (hInv : Inv db) : Inv (create_request u p db now).2 := by
  obtain ⟨hAud, hNd, hRb, hLb⟩ := hInv
  refine ⟨?_, ?_, ?_, ?_⟩
  · intro r hr
    simp only [create_request, List.mem_append, List.mem_singleton] at hr
    rcases hr with hr | rfl
    · exact hAud r hr
    · have hempty :
          db.logs.filter (fun l => decide (l.request_id = db.nextReqId)) = [] := by
        rw [List.filter_eq_nil_iff]
        intro l hl
        simp only [decide_eq_true_eq]
        exact Nat.ne_of_lt (hLb l hl)
      refine ⟨fun _ => rfl, ?_⟩
      intro l hl
      simp only [create_request, DB.logsFor] at hl
      rw [hempty] at hl
      simp at hl
  · simp only [create_request, List.map_append, List.map_cons, List.map_nil]
    rw [List.nodup_append]
    refine ⟨hNd, List.nodup_singleton _, ?_⟩
    intro a ha hb
    simp only [List.mem_singleton] at hb
    subst hb
    obtain ⟨r, hr, hid⟩ := List.mem_map.mp ha
    exact absurd hid (Nat.ne_of_lt (hRb r hr))
  · intro r hr
    simp only [create_request, List.mem_append, List.mem_singleton] at hr
    simp only [create_request]
    rcases hr with hr | rfl
    · exact Nat.lt_succ_of_lt (hRb r hr)
    · exact Nat.lt_succ_self _
  · intro l hl
    simp only [create_request] at hl ⊢
    exact Nat.lt_succ_of_lt (hLb l hl)

theorem Inv_update_log (db : DB) (p : ConsultationRequest → Bool)
    (req : ConsultationRequest) (s : Status) (now lid cb nid : Nat)
    (hInv : Inv db) (hfind : db.requests.find? p = some req) :
    Inv { db with
      requests := updateFirst p
        (fun r => { r with status := s, updated_at := now }) db.requests
      logs := db.logs ++ [⟨lid, req.id, cb, some req.status, s, now⟩]
      nextLogId := nid } := by
  obtain ⟨hAud, hNd, hRb, hLb⟩ := hInv
  obtain ⟨l₁, l₂, hl, hl₁⟩ := find?_decomp hfind
  have hpx : p req = true := List.find?_some hfind
  have hreqmem : req ∈ db.requests := List.mem_of_find?_eq_some hfind
  have hup : updateFirst p (fun r => { r with status := s, updated_at := now })
      db.requests = l₁ ++ { req with status := s, updated_at := now } :: l₂ := by
    rw [hl]
    exact updateFirst_append _ _ _ _ _ hl₁ hpx
  have hNd0 : ((l₁ ++ req :: l₂).map (fun r => r.id)).Nodup := by
    rw [← hl]; exact hNd
  have hnotin : req.id ∉ l₁.map (fun r => r.id) ∧
      req.id ∉ l₂.map (fun r => r.id) := by
    simp only [List.map_append, List.map_cons, List.nodup_append,
      List.nodup_cons, List.disjoint_cons_right] at hNd0
    exact ⟨fun hmem => hNd0.2.2.1 hmem, hNd0.2.1.1⟩
  have hlogsame : ∀ rid : Nat, rid ≠ req.id →
      (db.logs ++
          [ConsultationRequestStatusLog.mk lid req.id cb (some req.status) s
            now]).filter (fun l => decide (l.request_id = rid)) =
      db.logs.filter (fun l => decide (l.request_id = rid)) := by
    intro rid hne
    rw [List.filter_append]
    simp [hne.symm]
  refine ⟨?_, ?_, ?_, ?_⟩
  · intro r hr
    rw [hup] at hr
    simp only [List.mem_append, List.mem_cons] at hr
    rcases hr with hr | rfl | hr
    · have hne : r.id ≠ req.id := by
        intro he
        exact hnotin.1 (he ▸ List.mem_map_of_mem (fun r => r.id) hr)
      have hmem : r ∈ db.requests := by
        rw [hl]; exact List.mem_append_left _ hr
      have := hAud r hmem
      simpa only [DB.logsFor, hlogsame r.id hne] using this
    · constructor
      · intro hnone
        simp only [DB.logsFor, List.filter_append] at hnone
        simp at hnone
      · intro l hlast
        simp only [DB.logsFor, List.filter_append] at hlast
        have hsingle :
            ([ConsultationRequestStatusLog.mk lid req.id cb (some req.status) s
              now]).filter (fun l => decide (l.request_id = req.id)) =
            [ConsultationRequestStatusLog.mk lid req.id cb (some req.status) s
              now] := by
          simp
        rw [hsingle, List.getLast?_concat] at hlast
        obtain rfl := Option.some.inj hlast
        rfl
    · have hne : r.id ≠ req.id := by
        intro he
        exact hnotin.2 (he ▸ List.mem_map_of_mem (fun r => r.id) hr)
      have hmem : r ∈ db.requests := by
        rw [hl]
        exact List.mem_append_right _ (List.mem_cons_of_mem _ hr)
      have := hAud r hmem
      simpa only [DB.logsFor, hlogsame r.id hne] using this
  · rw [hup]
    simp only [List.map_append, List.map_cons]
    have : ({ req with status := s, updated_at := now } :
        ConsultationRequest).id = req.id := rfl
    rw [this]
    rw [hl] at hNd
    simpa only [List.map_append, List.map_cons] using hNd
  · intro r hr
    rw [hup] at hr
    simp only [List.mem_append, List.mem_cons] at hr
    rcases hr with hr | rfl | hr
    · exact hRb r (by rw [hl]; exact List.mem_append_left _ hr)
    · exact hRb req hreqmem
    · exact hRb r
        (by rw [hl]; exact List.mem_append_right _ (List.mem_cons_of_mem _ hr))
  · intro l hlmem
    simp only [List.mem_append, List.mem_singleton] at hlmem
    rcases hlmem with hlmem | rfl
    · exact hLb l hlmem
    · exact hRb req hreqmem

theorem Inv_cancel (rid : Nat) (u : User) (db : DB) (now : Nat)
    (hInv : Inv db) : Inv (dbAfter (cancel_my_request rid u db now) db) := by
  rcases hfind : db.requests.find? (ownPred rid u) with _ | req
  · simpa [dbAfter, cancel_my_request, hfind] using hInv
  · by_cases h1 : req.status = Status.in_review ∨ req.status = Status.completed
    · simpa [dbAfter, cancel_my_request, hfind, h1] using hInv
    · by_cases h2 : req.status = Status.cancelled
      · simpa [dbAfter, cancel_my_request, hfind, h1, h2] using hInv
      · simpa [dbAfter, cancel_my_request, hfind, h1, h2] using
          Inv_update_log db (ownPred rid u) req Status.cancelled now
            db.nextLogId u.id (db.nextLogId + 1) hInv hfind

theorem Inv_patch (rid : Nat) (s : Status) (u : User) (db : DB) (now : Nat)
    (hInv : Inv db) :
    Inv (dbAfter (update_request_status rid s u db now) db) := by
  by_cases hrole : isAdvisor u = true
  · rcases hfind : db.requests.find? (fun r => decide (r.id = rid)) with _ | req
    · simpa [dbAfter, update_request_status, hrole, hfind] using hInv
    · simpa [dbAfter, update_request_status, hrole, hfind] using
        Inv_update_log db (fun r => decide (r.id = rid)) req s now
          db.nextLogId u.id (db.nextLogId + 1) hInv hfind
  · simpa [dbAfter, update_request_status, hrole] using hInv

/-- States reachable from an initial database (any registered users, no
requests, no audit rows) through the exposed mutating operations of the
requests router: validated create, client cancel, advisor status patch. -/
inductive Reachable : DB → Prop where
  | init (users : List User) : Reachable ⟨users, [], [], 1, 1⟩
  | create (db : DB) (u : User) (p : ConsultationRequestCreate) (now : Nat) :
      Reachable db → validConsultationRequestBase p = true →
      Reachable (create_request u p db now).2
  | cancel (db : DB) (rid : Nat) (u : User) (now : Nat) :
      Reachable db → Reachable (dbAfter (cancel_my_request rid u db now) db)
  | patch (db : DB) (rid : Nat) (s : Status) (u : User) (now : Nat) :
      Reachable db → Reachable (dbAfter (update_request_status rid s u db now) db)

theorem Inv_reachable (db : DB) (h : Reachable db) : Inv db := by
  induction h with
  | init users =>
    refine ⟨?_, ?_, ?_, ?_⟩
    · intro r hr; simp at hr
    · simp
    · intro r hr; simp at hr
    · intro l hl; simp at hl
  | create db u p now hr hv ih => exact Inv_create u p db now ih
  | cancel db rid u now hr ih => exact Inv_cancel rid u db now ih
  | patch db rid s u now hr ih => exact Inv_patch rid s u db now ih

/-! ### Further lookup lemmas -/

theorem find?_prefix_false {α : Type} (p : α → Bool) (l₁ l₂ : List α) (x : α)
    (h₁ : ∀ y ∈ l₁, p y = false) (hx : p x = true) :
    (l₁ ++ x :: l₂).find? p = some x := by
  induction l₁ with
  | nil => simpa using List.find?_cons_of_pos l₂ hx
  | cons a t ih =>
    have ha : p a = false := h₁ a (List.mem_cons_self a t)
    rw [List.cons_append, List.find?_cons_of_neg _ (by simp [ha])]
    exact ih (fun y hy => h₁ y (List.mem_cons_of_mem a hy))

/-! ### Sample rows used by the concrete witnesses -/

/-- A registered client. -/
def clientA : User := ⟨1, "alice@example.com", Role.client⟩

/-- A second registered client. -/
def clientB : User := ⟨2, "bob@example.com", Role.client⟩

/-- A registered advisor. -/
def advisorU : User := ⟨3, "adv@example.com", Role.advisor⟩

/-- A well-formed create payload. -/
def payloadA : ConsultationRequestCreate :=
  ⟨"Costruzione fondo pensione", 1000, none, RiskProfile.equilibrato, 10, none⟩

/-- A pending request of `clientA`. -/
def reqA : ConsultationRequest :=
  ⟨1, 1, "Costruzione fondo pensione", 1000, none, RiskProfile.equilibrato,
    10, none, Status.pending, 5, 5⟩

/-- A pending request of `clientB`. -/
def reqB : ConsultationRequest :=
  ⟨2, 2, "Comprare casa", 500, none, RiskProfile.prudente, 5, none,
    Status.pending, 3, 3⟩

/-- A request of `clientA` already picked up by an advisor. -/
def reqC : ConsultationRequest :=
  ⟨1, 1, "Comprare casa", 500, none, RiskProfile.prudente, 5, none,
    Status.in_review, 4, 6⟩

/-- Database holding only `reqA`. -/
def dbOneReq : DB := ⟨[clientA, advisorU], [reqA], [], 2, 1⟩

/-- Database holding `reqA` and `reqB`. -/
def dbTwoReq : DB := ⟨[clientA, clientB, advisorU], [reqA, reqB], [], 3, 1⟩

/-- Database holding the in-review request `reqC`. -/
def dbInReview : DB := ⟨[clientA, advisorU], [reqC], [], 2, 1⟩

/-! ### Claim theorems -/

/-- C1: after any sequence of the exposed operations (validated create,
client cancel, advisor status patch) from an initial database, every request
whose audit trail is nonempty has its most recent StatusLog row's new_status
equal to its current status, and every request with no audit row is still
pending. -/
theorem c1_audit_reconciliation (db : DB) (h : Reachable db) : auditOk db :=
  (Inv_reachable db h).1

/-- C1 witness: the invariant evaluated after a concrete create followed by
an advisor patch. -/
theorem c1_audit_reconciliation_witness :
    auditOk (dbAfter (update_request_status 1 Status.in_review advisorU
      (create_request clientA payloadA ⟨[clientA], [], [], 1, 1⟩ 5).2 7)
      (create_request clientA payloadA ⟨[clientA], [], [], 1, 1⟩ 5).2) :=
  c1_audit_reconciliation _
    (Reachable.patch _ 1 Status.in_review advisorU 7
      (Reachable.create _ clientA payloadA 5 (Reachable.init [clientA])
        (by decide)))

/-- C2: a status patch by an advisor or admin on an existing request, for any
new status from any current status, appends exactly one audit row recording
the prior status, the new status and the caller's id, and the stored request
ends with exactly that new status. -/
theorem c2_advisor_patch_audit (rid : Nat) (s : Status) (u : User) (db : DB)
    (now : Nat) (req : ConsultationRequest)
    (hrole : u.role = Role.advisor ∨ u.role = Role.admin)
    (hfind : db.requests.find? (fun r => decide (r.id = rid)) = some req) :
    ∃ out db',
      update_request_status rid s u db now = .ok (out, db') ∧
      db'.logs = db.logs ++
        [ConsultationRequestStatusLog.mk db.nextLogId req.id u.id
          (some req.status) s now] ∧
      db'.requests.find? (fun r => decide (r.id = rid)) =
        some { req with status := s, updated_at := now } ∧
      out = { req with status := s, updated_at := now } := by
  have hadv : isAdvisor u = true := by
    rcases hrole with h | h <;> simp [isAdvisor, h]
  obtain ⟨l₁, l₂, hl, hl₁⟩ := find?_decomp hfind
  have hpx : decide (req.id = rid) = true := by
    simpa using List.find?_some hfind
  have hstep : update_request_status rid s u db now =
      .ok ({ req with status := s, updated_at := now },
        { db with
          requests := updateFirst (fun r => decide (r.id = rid))
            (fun r => { r with status := s, updated_at := now }) db.requests
          logs := db.logs ++
            [ConsultationRequestStatusLog.mk db.nextLogId req.id u.id
              (some req.status) s now]
          nextLogId := db.nextLogId + 1 }) := by
    simp [update_request_status, hadv, hfind]
  refine ⟨_, _, hstep, rfl, ?_, rfl⟩
  rw [hl, updateFirst_append _ _ _ _ _ hl₁ hpx]
  exact find?_prefix_false _ _ _ _ hl₁ (by simpa using hpx)

/-- C2 witness: the patch theorem evaluated on a concrete pending request,
patched to completed by a concrete advisor. -/
theorem c2_advisor_patch_audit_witness :
    ∃ out db',
      update_request_status 1 Status.completed advisorU dbOneReq 9 =
        .ok (out, db') ∧
      db'.logs = dbOneReq.logs ++
        [ConsultationRequestStatusLog.mk dbOneReq.nextLogId reqA.id advisorU.id
          (some reqA.status) Status.completed 9] ∧
      db'.requests.find? (fun r => decide (r.id = 1)) =
        some { reqA with status := Status.completed, updated_at := 9 } ∧
      out = { reqA with status := Status.completed, updated_at := 9 } :=
  c2_advisor_patch_audit 1 Status.completed advisorU dbOneReq 9 reqA
    (Or.inl rfl) (by decide)

/-- C3: an owner cancel on a request currently in_review or completed fails
with HTTP 400 and commits nothing: the database after the call is exactly
the prior database. -/
theorem c3_cancel_blocked (rid : Nat) (u : User) (db : DB) (now : Nat)
    (req : ConsultationRequest)
    (hfind : db.requests.find? (ownPred rid u) = some req)
    (hst : req.status = Status.in_review ∨ req.status = Status.completed) :
    cancel_my_request rid u db now = .error 400 ∧
      dbAfter (cancel_my_request rid u db now) db = db := by
  have h : cancel_my_request rid u db now = .error 400 := by
    simp only [cancel_my_request, hfind]
    rw [if_pos hst]
  exact ⟨h, by rw [h]; rfl⟩

/-- C3 witness: cancelling a concrete in-review request fails with 400 and
leaves the database intact. -/
theorem c3_cancel_blocked_witness :
    cancel_my_request 1 clientA dbInReview 9 = .error 400 ∧
      dbAfter (cancel_my_request 1 clientA dbInReview 9) dbInReview =
        dbInReview :=
  c3_cancel_blocked 1 clientA dbInReview 9 reqC (by decide) (Or.inl rfl)

/-- C4: cancel is idempotent — on an already cancelled request it returns
(cancelled, cancelled) without touching the database, and two cancels on a
fresh pending request leave exactly one audit row, the second returning
(cancelled, cancelled) with the database unchanged. -/
theorem c4_cancel_idempotent (rid : Nat) (u : User) (db : DB)
    (now now' : Nat) (req : ConsultationRequest)
    (hfind : db.requests.find? (ownPred rid u) = some req) :
    (req.status = Status.cancelled →
      cancel_my_request rid u db now =
        .ok (⟨true, Status.cancelled, Status.cancelled⟩, db)) ∧
    (req.status = Status.pending → db.logsFor rid = [] →
      ∃ db₁,
        cancel_my_request rid u db now =
          .ok (⟨true, Status.pending, Status.cancelled⟩, db₁) ∧
        cancel_my_request rid u db₁ now' =
          .ok (⟨true, Status.cancelled, Status.cancelled⟩, db₁) ∧
        (db₁.logsFor rid).length = 1) := by
  have hpx : ownPred rid u req = true := List.find?_some hfind
  have hid : req.id = rid ∧ req.user_id = u.id := by
    simpa [ownPred] using hpx
  constructor
  · intro hc
    simp [cancel_my_request, hfind, hc]
  · intro hp hlogs
    obtain ⟨l₁, l₂, hl, hl₁⟩ := find?_decomp hfind
    refine ⟨{ db with
        requests := updateFirst (ownPred rid u)
          (fun r => { r with status := Status.cancelled, updated_at := now })
          db.requests
        logs := db.logs ++
          [ConsultationRequestStatusLog.mk db.nextLogId req.id u.id
            (some req.status) Status.cancelled now]
        nextLogId := db.nextLogId + 1 }, ?_, ?_, ?_⟩
    · simp [cancel_my_request, hfind, hp]
    · have hfind₁ :
          (updateFirst (ownPred rid u)
            (fun r => { r with status := Status.cancelled, updated_at := now })
            db.requests).find? (ownPred rid u) =
          some { req with status := Status.cancelled, updated_at := now } := by
        rw [hl, updateFirst_append _ _ _ _ _ hl₁ hpx]
        exact find?_prefix_false _ _ _ _ hl₁ (by simpa [ownPred] using hpx)
      simp [cancel_my_request, hfind₁]
    · simp only [DB.logsFor, List.filter_append]
      have h0 : db.logs.filter (fun l => decide (l.request_id = rid)) = [] :=
        hlogs
      rw [h0]
      simp [hid.1]

/-- C4 witness: a double cancel on the concrete pending request `reqA`. -/
theorem c4_cancel_idempotent_witness :
    (reqA.status = Status.cancelled →
      cancel_my_request 1 clientA dbOneReq 9 =
        .ok (⟨true, Status.cancelled, Status.cancelled⟩, dbOneReq)) ∧
    (reqA.status = Status.pending → dbOneReq.logsFor 1 = [] →
      ∃ db₁,
        cancel_my_request 1 clientA dbOneReq 9 =
          .ok (⟨true, Status.pending, Status.cancelled⟩, db₁) ∧
        cancel_my_request 1 clientA db₁ 11 =
          .ok (⟨true, Status.cancelled, Status.cancelled⟩, db₁) ∧
        (db₁.logsFor 1).length = 1) :=
  c4_cancel_idempotent 1 clientA dbOneReq 9 11 reqA (by decide)

/-- Payload exposing the gap between the spec'd constraints and the
validator: zero amount and empty goal. -/
def cexPayload : ConsultationRequestCreate :=
  ⟨"", 0, none, RiskProfile.prudente, 10, none⟩

/-- C5 counterexample: a payload with amount = 0 and an empty goal passes the
create validation, so create does not require amount > 0 nor a non-empty
goal. -/
theorem c5_counterexample :
    validConsultationRequestBase cexPayload = true ∧
      cexPayload.amount = 0 ∧ cexPayload.goal = "" := by
  refine ⟨by decide, by decide, rfl⟩

/-- C5 amended: the create validation accepts exactly the payloads with
amount ≥ 0, monthly_contribution ≥ 0 when present, and time_horizon_years
within [1, 60]; risk_profile is constrained to the three enumerated values
by its type, while goal is unconstrained (the empty string and amount = 0
are accepted, although the amount field's own description says > 0). -/
theorem c5_validation_characterization (p : ConsultationRequestCreate) :
    validConsultationRequestBase p = true ↔
      (0 ≤ p.amount ∧ (∀ m, p.monthly_contribution = some m → 0 ≤ m) ∧
        1 ≤ p.time_horizon_years ∧ p.time_horizon_years ≤ 60) := by
  rcases hm : p.monthly_contribution with _ | m <;>
    simp [validConsultationRequestBase, hm, and_assoc]

/-- C5 witness: the validation characterization evaluated at a concrete
payload. -/
theorem c5_validation_characterization_witness :
    validConsultationRequestBase payloadA = true ↔
      (0 ≤ payloadA.amount ∧
        (∀ m, payloadA.monthly_contribution = some m → 0 ≤ m) ∧
        1 ≤ payloadA.time_horizon_years ∧ payloadA.time_horizon_years ≤ 60) :=
  c5_validation_characterization payloadA

/-- C6: a validated create produces a request owned by the authenticated
caller, with status pending, appended to the request table, while the audit
table is untouched and holds no row for the fresh request id. -/
theorem c6_create_pending (u : User) (p : ConsultationRequestCreate) (db : DB)
    (now : Nat) (h : Reachable db)
    (_hv : validConsultationRequestBase p = true) :
    (create_request u p db now).1.user_id = u.id ∧
    (create_request u p db now).1.status = Status.pending ∧
    (create_request u p db now).2.requests =
      db.requests ++ [(create_request u p db now).1] ∧
    (create_request u p db now).2.logs = db.logs ∧
    (create_request u p db now).2.logsFor (create_request u p db now).1.id =
      [] := by
  obtain ⟨-, -, -, hLb⟩ := Inv_reachable db h
  refine ⟨rfl, rfl, rfl, rfl, ?_⟩
  simp only [create_request, DB.logsFor]
  rw [List.filter_eq_nil_iff]
  intro l hl
  simp only [decide_eq_true_eq]
  exact Nat.ne_of_lt (hLb l hl)

/-- C6 witness: a concrete create from an initial database. -/
theorem c6_create_pending_witness :
    (create_request clientA payloadA ⟨[clientA], [], [], 1, 1⟩ 5).1.user_id =
      clientA.id ∧
    (create_request clientA payloadA ⟨[clientA], [], [], 1, 1⟩ 5).1.status =
      Status.pending ∧
    (create_request clientA payloadA ⟨[clientA], [], [], 1, 1⟩ 5).2.requests =
      (⟨[clientA], [], [], 1, 1⟩ : DB).requests ++
        [(create_request clientA payloadA ⟨[clientA], [], [], 1, 1⟩ 5).1] ∧
    (create_request clientA payloadA ⟨[clientA], [], [], 1, 1⟩ 5).2.logs =
      (⟨[clientA], [], [], 1, 1⟩ : DB).logs ∧
    (create_request clientA payloadA ⟨[clientA], [], [], 1, 1⟩ 5).2.logsFor
      (create_request clientA payloadA ⟨[clientA], [], [], 1, 1⟩ 5).1.id =
      [] :=
  c6_create_pending clientA payloadA ⟨[clientA], [], [], 1, 1⟩ 5
    (Reachable.init [clientA]) (by decide)

/-- A request of `clientA` already cancelled, carrying the audit row its
cancellation wrote (every cancelled request has at least one). -/
def reqD : ConsultationRequest :=
  ⟨1, 1, "Comprare casa", 500, none, RiskProfile.prudente, 5, none,
    Status.cancelled, 4, 8⟩

/-- The audit row of `reqD`'s pending → cancelled transition. -/
def logD : ConsultationRequestStatusLog :=
  ⟨1, 1, 1, some Status.pending, Status.cancelled, 8⟩

/-- Database holding the cancelled request `reqD` and its audit row. -/
def dbCancelled : DB := ⟨[clientA, advisorU], [reqD], [logD], 2, 2⟩

/-- C7: the delete endpoint evaluated at the failing input — the owner
deletes a cancelled request carrying its audit row: the status guard admits
it (cancelled is in the claim's success set), yet the commit fails
(IntegrityError from nulling the NOT NULL `logs.request_id`, surfacing as
HTTP 500) and nothing is deleted, where the claim says the delete succeeds
and hard-deletes the row. -/
theorem c7_delete_cascade_bug :
    (reqD.status = Status.pending ∨ reqD.status = Status.cancelled) ∧
    delete_my_request 1 clientA dbCancelled = .error 500 ∧
    dbAfter (delete_my_request 1 clientA dbCancelled) dbCancelled =
      dbCancelled :=
  ⟨Or.inr rfl, rfl, rfl⟩

/-- C8 counterexample: the outward signal is not the same — for both get
and history, another user's existing request returns 403 while an absent id
returns 404. -/
theorem c8_counterexample :
    get_my_request 2 clientA dbTwoReq = .error 403 ∧
      get_my_request 99 clientA dbTwoReq = .error 404 ∧
      get_request_history 2 clientA dbTwoReq = .error 403 ∧
      get_request_history 99 clientA dbTwoReq = .error 404 ∧
      (403 : Nat) ≠ 404 :=
  ⟨rfl, rfl, rfl, rfl, by decide⟩

/-- C8 amended: a client requester who is not the owner never receives the
request's data: cancel and delete answer 404 both when the id is absent and
when the request belongs to another user, while get and history answer 404
exactly when the id is absent and 403 exactly when the request exists but
belongs to another user — always an error, though not always the same
code. -/
theorem c8_owner_scoped_errors (rid : Nat) (u : User) (db : DB) (now : Nat)
    (hrole : u.role = Role.client)
    (hown : ∀ r ∈ db.requests, r.id = rid → r.user_id ≠ u.id) :
    cancel_my_request rid u db now = .error 404 ∧
    delete_my_request rid u db = .error 404 ∧
    ((∀ r ∈ db.requests, r.id ≠ rid) →
      get_my_request rid u db = .error 404 ∧
      get_request_history rid u db = .error 404) ∧
    ((∃ r ∈ db.requests, r.id = rid) →
      get_my_request rid u db = .error 403 ∧
      get_request_history rid u db = .error 403) := by
  have hnone : db.requests.find? (ownPred rid u) = none := by
    rw [List.find?_eq_none]
    intro r hr hp
    have hc : r.id = rid ∧ r.user_id = u.id := by simpa [ownPred] using hp
    exact hown r hr hc.1 hc.2
  refine ⟨by simp [cancel_my_request, hnone],
    by simp [delete_my_request, hnone], ?_, ?_⟩
  · intro habs
    have hfind : db.requests.find? (fun r => decide (r.id = rid)) = none := by
      rw [List.find?_eq_none]
      intro r hr hp
      exact habs r hr (by simpa using hp)
    exact ⟨by simp [get_my_request, hfind],
      by simp [get_request_history, hfind]⟩
  · intro hex
    obtain ⟨r0, hr0, hid0⟩ := hex
    rcases hfind : db.requests.find? (fun r => decide (r.id = rid)) with _ | req
    · exfalso
      rw [List.find?_eq_none] at hfind
      exact hfind r0 hr0 (by simpa using hid0)
    · have hid : req.id = rid := by simpa using List.find?_some hfind
      have hne : req.user_id ≠ u.id :=
        hown req (List.mem_of_find?_eq_some hfind) hid
      have hcl : ¬ (u.role = Role.advisor ∨ u.role = Role.admin) := by
        simp [hrole]
      exact ⟨by simp [get_my_request, hfind, hne],
        by simp [get_request_history, hfind, hne, hcl]⟩

/-- C8 witness: `clientA` aiming at `clientB`'s request in the concrete
two-request database (the existing-request branch applies: both get and
history answer 403, cancel and delete answer 404). -/
theorem c8_owner_scoped_errors_witness :
    cancel_my_request 2 clientA dbTwoReq 9 = .error 404 ∧
    delete_my_request 2 clientA dbTwoReq = .error 404 ∧
    ((∀ r ∈ dbTwoReq.requests, r.id ≠ 2) →
      get_my_request 2 clientA dbTwoReq = .error 404 ∧
      get_request_history 2 clientA dbTwoReq = .error 404) ∧
    ((∃ r ∈ dbTwoReq.requests, r.id = 2) →
      get_my_request 2 clientA dbTwoReq = .error 403 ∧
      get_request_history 2 clientA dbTwoReq = .error 403) :=
  c8_owner_scoped_errors 2 clientA dbTwoReq 9 rfl (by decide)

/-- Paginated items come from the unpaginated, unsorted query result. -/
theorem paginate_sub {α : Type} (le : α → α → Bool) (l : List α)
    (skip limit : Nat) (a : α)
    (h : a ∈ ((sortByLe le l).drop skip).take limit) : a ∈ l :=
  (mem_sortByLe le l a).mp (List.mem_of_mem_drop (List.mem_of_mem_take h))

/-- The row filter `list_all_requests` actually applies: a non-blank `q`
rebuilds the query and discards the status filter; otherwise the optional
status-equality filter applies. -/
def effectiveFilter (db : DB) (statusF : Option Status) (q : Option String) :
    ConsultationRequest → Bool :=
  match q with
  | some qs =>
    if pyStrip qs = "" then
      match statusF with
      | some s => fun r => decide (r.status = s)
      | none => fun _ => true
    else qMatch db (pyStrip qs)
  | none =>
    match statusF with
    | some s => fun r => decide (r.status = s)
    | none => fun _ => true

/-- C9 counterexample: with both a status filter and a non-blank search
string supplied, the advisor list returns an item that violates the status
filter (the rebuilt query dropped it). -/
theorem c9_counterexample :
    list_all_requests (some Status.completed) (some "fondo") 0 25 advisorU
      dbTwoReq = .ok ⟨[reqA], 1⟩ ∧ reqA.status ≠ Status.completed :=
  ⟨rfl, by decide⟩

/-- C9 amended: for an advisor/admin, every returned item satisfies the
effective filter — the case-insensitive `ILIKE` match of the stripped q
wrapped in `%` (with `%` and `_` inside q staying live SQL wildcards)
across goal, notes or owner email, alone, when q is non-blank (the rebuilt
query discards the status filter), otherwise the status-equality filter —
and total counts the rows matching that same effective filter before
skip/limit pagination. -/
theorem c9_list_filters (statusF : Option Status) (q : Option String)
    (skip limit : Nat) (u : User) (db : DB)
    (hrole : u.role = Role.advisor ∨ u.role = Role.admin) :
    ∃ out, list_all_requests statusF q skip limit u db = .ok out ∧
      out.total = (db.requests.filter (effectiveFilter db statusF q)).length ∧
      ∀ r ∈ out.items, effectiveFilter db statusF q r = true := by
  have hadv : isAdvisor u = true := by
    rcases hrole with h | h <;> simp [isAdvisor, h]
  have hsort : ∀ (f : ConsultationRequest → Bool) (r : ConsultationRequest),
      r ∈ ((sortByLe (fun a b => decide (b.created_at ≤ a.created_at))
        (db.requests.filter f)).drop skip).take limit → f r = true :=
    fun f r hr => (List.mem_filter.mp (paginate_sub _ _ skip limit r hr)).2
  rcases q with _ | qs
  · rcases statusF with _ | s
    · refine ⟨⟨((sortByLe (fun a b => decide (b.created_at ≤ a.created_at))
          db.requests).drop skip).take limit, db.requests.length⟩, ?_, ?_, ?_⟩
      · simp [list_all_requests, hadv]
      · simp [effectiveFilter, List.filter_true]
      · intro r _
        simp [effectiveFilter]
    · refine ⟨⟨((sortByLe (fun a b => decide (b.created_at ≤ a.created_at))
          (db.requests.filter (fun r => decide (r.status = s)))).drop
            skip).take limit,
          (db.requests.filter (fun r => decide (r.status = s))).length⟩,
          ?_, ?_, ?_⟩
      · simp [list_all_requests, hadv]
      · simp [effectiveFilter]
      · intro r hr
        have h := hsort (fun r => decide (r.status = s)) r hr
        simpa [effectiveFilter] using h
  · by_cases hq : pyStrip qs = ""
    · rcases statusF with _ | s
      · refine ⟨⟨((sortByLe (fun a b => decide (b.created_at ≤ a.created_at))
            db.requests).drop skip).take limit, db.requests.length⟩, ?_, ?_, ?_⟩
        · simp [list_all_requests, hadv, hq]
        · simp [effectiveFilter, hq, List.filter_true]
        · intro r _
          simp [effectiveFilter, hq]
      · refine ⟨⟨((sortByLe (fun a b => decide (b.created_at ≤ a.created_at))
            (db.requests.filter (fun r => decide (r.status = s)))).drop
              skip).take limit,
            (db.requests.filter (fun r => decide (r.status = s))).length⟩,
            ?_, ?_, ?_⟩
        · simp [list_all_requests, hadv, hq]
        · simp [effectiveFilter, hq]
        · intro r hr
          have h := hsort (fun r => decide (r.status = s)) r hr
          simpa [effectiveFilter, hq] using h
    · refine ⟨⟨((sortByLe (fun a b => decide (b.created_at ≤ a.created_at))
          (db.requests.filter (qMatch db (pyStrip qs)))).drop skip).take limit,
          (db.requests.filter (qMatch db (pyStrip qs))).length⟩, ?_, ?_, ?_⟩
      · simp [list_all_requests, hadv, hq]
      · simp [effectiveFilter, hq]
      · intro r hr
        have h := hsort (qMatch db (pyStrip qs)) r hr
        simpa [effectiveFilter, hq] using h

/-- C9 witness: the amended list property evaluated with a status filter and
no search string on the concrete two-request database. -/
theorem c9_list_filters_witness :
    ∃ out, list_all_requests (some Status.pending) none 0 25 advisorU
        dbTwoReq = .ok out ∧
      out.total = (dbTwoReq.requests.filter
        (effectiveFilter dbTwoReq (some Status.pending) none)).length ∧
      ∀ r ∈ out.items,
        effectiveFilter dbTwoReq (some Status.pending) none r = true :=
  c9_list_filters (some Status.pending) none 0 25 advisorU dbTwoReq
    (Or.inl rfl)

/-- C10: frame property of the advisor status patch — the found row is
replaced in place by a copy differing only in status and updated_at (owner,
goal, amount, monthly_contribution, risk_profile, time_horizon_years, notes
and created_at are carried over), every other request row and the user table
are untouched, and the handler returns that patched row. -/
theorem c10_patch_frame (rid : Nat) (s : Status) (u : User) (db : DB)
    (now : Nat) (req : ConsultationRequest)
    (hrole : u.role = Role.advisor ∨ u.role = Role.admin)
    (hfind : db.requests.find? (fun r => decide (r.id = rid)) = some req) :
    ∃ out db' l₁ l₂,
      update_request_status rid s u db now = .ok (out, db') ∧
      db.requests = l₁ ++ req :: l₂ ∧
      db'.requests = l₁ ++ { req with status := s, updated_at := now } :: l₂ ∧
      out = { req with status := s, updated_at := now } ∧
      db'.users = db.users := by
  have hadv : isAdvisor u = true := by
    rcases hrole with h | h <;> simp [isAdvisor, h]
  obtain ⟨l₁, l₂, hl, hl₁⟩ := find?_decomp hfind
  have hpx : decide (req.id = rid) = true := by
    simpa using List.find?_some hfind
  have hstep : update_request_status rid s u db now =
      .ok ({ req with status := s, updated_at := now },
        { db with
          requests := updateFirst (fun r => decide (r.id = rid))
            (fun r => { r with status := s, updated_at := now }) db.requests
          logs := db.logs ++
            [ConsultationRequestStatusLog.mk db.nextLogId req.id u.id
              (some req.status) s now]
          nextLogId := db.nextLogId + 1 }) := by
    simp [update_request_status, hadv, hfind]
  refine ⟨_, _, l₁, l₂, hstep, hl, ?_, rfl, rfl⟩
  show updateFirst (fun r => decide (r.id = rid))
      (fun r => { r with status := s, updated_at := now }) db.requests =
    l₁ ++ { req with status := s, updated_at := now } :: l₂
  rw [hl]
  exact updateFirst_append _ _ _ _ _ hl₁ hpx

/-- C10 witness: the frame property evaluated on the concrete single-request
database. -/
theorem c10_patch_frame_witness :
    ∃ out db' l₁ l₂,
      update_request_status 1 Status.in_review advisorU dbOneReq 9 =
        .ok (out, db') ∧
      dbOneReq.requests = l₁ ++ reqA :: l₂ ∧
      db'.requests =
        l₁ ++ { reqA with status := Status.in_review, updated_at := 9 } :: l₂ ∧
      out = { reqA with status := Status.in_review, updated_at := 9 } ∧
      db'.users = dbOneReq.users :=
  c10_patch_frame 1 Status.in_review advisorU dbOneReq 9 reqA (Or.inl rfl)
    (by decide)

end Aurora
